import Mathlib

/-!
Shallow embedding of the `CardPool` class from `src/adaptivecards-pool.ts`.

The pool state carries the three fields of the TS class:
* `cardPool`   : the storage object (name → AdaptiveCard), embedded as an
  association list in JS-object key order (assignment to an existing key keeps
  its position, a new key is appended);
* `cardSet`    : the total-recency `Set`, embedded as a list in insertion
  order, oldest first;
* `statefulCardSet` : the protected-recency `Set`, same convention.

The artifact type (`AdaptiveCard`) and the payload type are opaque to the
pool, so both are type parameters.  `Set.delete` + `Set.add` (move-to-end)
becomes `setTouch`; `Array.from(set)[0]` is the list head.
-/

abbrev CardName := String

structure CardPoolState (Card : Type) where
  cardPool : List (CardName × Card)
  cardSet : List CardName
  statefulCardSet : List CardName
deriving Repr, DecidableEq

def emptyPool {Card : Type} : CardPoolState Card := ⟨[], [], []⟩

/-- JS property read `obj[n]`: first (only) entry with key `n`, if any. -/
def poolLookup {Card : Type} : List (CardName × Card) → CardName → Option Card
  | [], _ => none
  | kv :: rest, n => if kv.1 = n then some kv.2 else poolLookup rest n

/-- JS property write `obj[n] = c`: replace the value at an existing key in
place, otherwise append the new key at the end. -/
def poolInsert {Card : Type} : List (CardName × Card) → CardName → Card → List (CardName × Card)
  | [], n, c => [(n, c)]
  | kv :: rest, n, c => if kv.1 = n then (n, c) :: rest else kv :: poolInsert rest n c

/-- JS `delete obj[n]`. -/
def poolDelete {Card : Type} : List (CardName × Card) → CardName → List (CardName × Card)
  | [], _ => []
  | kv :: rest, n => if kv.1 = n then poolDelete rest n else kv :: poolDelete rest n

/-- JS `set.delete(n); set.add(n)`: move `n` to the end (MRU position). -/
def setTouch (l : List CardName) (n : CardName) : List CardName :=
  l.erase n ++ [n]

/-- Constructor, line `CAPACITY_CARDS = Math.max(4, cardPoolCapacity)`. -/
def CAPACITY_CARDS (cardPoolCapacity : Nat) : Nat := max 4 cardPoolCapacity

/-- Constructor, line `CAPACITY_STATEFUL_CARDS = Math.ceil(CAPACITY_CARDS / 4)`
(`(x + 3) / 4` is `ceil(x / 4)` on naturals). -/
def CAPACITY_STATEFUL_CARDS (cardPoolCapacity : Nat) : Nat :=
  (CAPACITY_CARDS cardPoolCapacity + 3) / 4

/-- First `if` of `purgeUnusedCard`: when the protected set is over capacity,
dequeue its oldest member (`Array.from(statefulCardSet)[0]`, i.e. the head). -/
def statefulDequeueStep {Card : Type} (capStateful : Nat) (s : CardPoolState Card) :
    CardPoolState Card :=
  if s.statefulCardSet.length > capStateful then
    match s.statefulCardSet with
    | [] => s -- unreachable: the length guard forces a nonempty list
    | _ :: rest => { s with statefulCardSet := rest }
  else s

/-- Second `if` of `purgeUnusedCard`: when the total set is over capacity,
scan it oldest-to-newest, delete the first name not held by the (already
updated) protected set from both the total set and storage, and `break`. -/
def totalOverflowStep {Card : Type} (capCards : Nat) (s : CardPoolState Card) :
    CardPoolState Card :=
  if s.cardSet.length > capCards then
    match s.cardSet.find? (fun nm => decide (nm ∉ s.statefulCardSet)) with
    | some nm =>
        { s with cardSet := s.cardSet.erase nm, cardPool := poolDelete s.cardPool nm }
    | none => s
  else s

/-- `purgeUnusedCard`: the two `if` blocks in source order. -/
def purgeUnusedCard {Card : Type} (capCards capStateful : Nat) (s : CardPoolState Card) :
    CardPoolState Card :=
  totalOverflowStep capCards (statefulDequeueStep capStateful s)

/-- `markCardInuse(cardName, statefulCard?)`. -/
def markCardInuse {Card : Type} (capCards capStateful : Nat) (s : CardPoolState Card)
    (cardName : CardName) (statefulCard : Option Card) : CardPoolState Card :=
  if (poolLookup s.cardPool cardName).isSome || statefulCard.isSome then
    let s1 := { s with cardSet := setTouch s.cardSet cardName }
    let s2 := match statefulCard with
      | some c =>
          let t := { s1 with statefulCardSet := setTouch s1.statefulCardSet cardName }
          { t with cardPool :=
              if (poolLookup t.cardPool cardName).isSome then t.cardPool
              else poolInsert t.cardPool cardName c }
      | none => s1
    purgeUnusedCard capCards capStateful s2
  else s

/-- The `if`/`else if` at the top of `getCard`: hit leaves storage alone; a
miss with a payload stores `createCardOnDemand(cardName, cardPayload)`. -/
def fetchStoreStep {Card Payload : Type} (factory : CardName → Payload → Card)
    (s : CardPoolState Card) (cardName : CardName) (cardPayload : Option Payload) :
    CardPoolState Card :=
  if (poolLookup s.cardPool cardName).isSome then s
  else match cardPayload with
    | some p => { s with cardPool := poolInsert s.cardPool cardName (factory cardName p) }
    | none => s

/-- `getCard(cardName, cardPayload?)`: hit, or miss-with-construction, then
`markCardInuse(cardName)`; returns `cardPool[cardName]` read after the pass. -/
def getCard {Card Payload : Type} (factory : CardName → Payload → Card)
    (capCards capStateful : Nat) (s : CardPoolState Card) (cardName : CardName)
    (cardPayload : Option Payload) : Option Card × CardPoolState Card :=
  let s2 := markCardInuse capCards capStateful
    (fetchStoreStep factory s cardName cardPayload) cardName none
  (poolLookup s2.cardPool cardName, s2)

/-- `getCard` against a factory that can throw (`card.parse` raising inside
`createCardOnDemand`): the exception aborts the call before the assignment
`cardPool[cardName] = ...`, so the caller gets the error and the state it
already had. -/
def getCardE {Card Payload ε : Type} (factory : CardName → Payload → Except ε Card)
    (capCards capStateful : Nat) (s : CardPoolState Card) (cardName : CardName)
    (cardPayload : Option Payload) : Except ε (Option Card) × CardPoolState Card :=
  if (poolLookup s.cardPool cardName).isSome then
    let s2 := markCardInuse capCards capStateful s cardName none
    (Except.ok (poolLookup s2.cardPool cardName), s2)
  else match cardPayload with
    | some p =>
        match factory cardName p with
        | Except.error e => (Except.error e, s)
        | Except.ok c =>
            let s1 := { s with cardPool := poolInsert s.cardPool cardName c }
            let s2 := markCardInuse capCards capStateful s1 cardName none
            (Except.ok (poolLookup s2.cardPool cardName), s2)
    | none =>
        let s2 := markCardInuse capCards capStateful s cardName none
        (Except.ok (poolLookup s2.cardPool cardName), s2)

/-- One public call on the pool: `getCard` (fetch) or `markCardInuse` (touch). -/
inductive PoolOp (Card Payload : Type) where
  | fetch (cardName : CardName) (cardPayload : Option Payload)
  | touch (cardName : CardName) (statefulCard : Option Card)

def runOp {Card Payload : Type} (factory : CardName → Payload → Card)
    (capCards capStateful : Nat) (s : CardPoolState Card) :
    PoolOp Card Payload → CardPoolState Card
  | PoolOp.fetch n p => (getCard factory capCards capStateful s n p).2
  | PoolOp.touch n c => markCardInuse capCards capStateful s n c

def runOps {Card Payload : Type} (factory : CardName → Payload → Card)
    (capCards capStateful : Nat) (s : CardPoolState Card)
    (ops : List (PoolOp Card Payload)) : CardPoolState Card :=
  ops.foldl (runOp factory capCards capStateful) s

/-- Well-formedness of a pool state, as the JS runtime guarantees it for the
class fields: `Set`s hold no duplicates, the protected set is a subset of the
total set, total-set names and storage keys coincide, and both sets are within
capacity (re-established at the end of every public call). -/
def WF {Card : Type} (capCards capStateful : Nat) (s : CardPoolState Card) : Prop :=
  s.cardSet.Nodup ∧ s.statefulCardSet.Nodup ∧
  (∀ n ∈ s.statefulCardSet, n ∈ s.cardSet) ∧
  (∀ n ∈ s.cardSet, (poolLookup s.cardPool n).isSome) ∧
  (∀ kv ∈ s.cardPool, kv.1 ∈ s.cardSet) ∧
  s.cardSet.length ≤ capCards ∧ s.statefulCardSet.length ≤ capStateful

/-! ### Basic lemmas about the storage map and the move-to-end operation -/

theorem poolLookup_poolInsert {Card : Type} (p : List (CardName × Card)) (n : CardName)
    (c : Card) (m : CardName) :
    poolLookup (poolInsert p n c) m = if m = n then some c else poolLookup p m := by
  induction p with
  | nil =>
      by_cases h : m = n
      · simp [poolInsert, poolLookup, h]
      · have h' : ¬ n = m := fun hc => h hc.symm
        simp [poolInsert, poolLookup, h, h']
  | cons kv rest ih =>
      by_cases hk : kv.1 = n
      · by_cases hm : m = n
        · simp [poolInsert, poolLookup, hk, hm]
        · have h' : ¬ n = m := fun hc => hm hc.symm
          simp [poolInsert, poolLookup, hk, hm, h']
      · by_cases hm : kv.1 = m
        · have hmn : ¬ m = n := fun hc => hk (hm.trans hc)
          simp [poolInsert, poolLookup, hk, hm, hmn]
        · simp [poolInsert, poolLookup, hk, hm, ih]

theorem mem_poolInsert {Card : Type} {p : List (CardName × Card)} {n : CardName}
    {c : Card} {kv : CardName × Card} (h : kv ∈ poolInsert p n c) :
    kv = (n, c) ∨ kv ∈ p := by
  induction p with
  | nil => simpa [poolInsert] using h
  | cons kv' rest ih =>
      by_cases hk : kv'.1 = n
      · simp only [poolInsert, if_pos hk, List.mem_cons] at h
        rcases h with h | h
        · exact Or.inl h
        · exact Or.inr (List.mem_cons_of_mem _ h)
      · simp only [poolInsert, if_neg hk, List.mem_cons] at h
        rcases h with h | h
        · exact Or.inr (h ▸ List.mem_cons_self _ _)
        · rcases ih h with h' | h'
          · exact Or.inl h'
          · exact Or.inr (List.mem_cons_of_mem _ h')

theorem poolLookup_poolDelete_self {Card : Type} (p : List (CardName × Card)) (n : CardName) :
    poolLookup (poolDelete p n) n = none := by
  induction p with
  | nil => rfl
  | cons kv rest ih =>
      by_cases hk : kv.1 = n
      · simp [poolDelete, hk, ih]
      · simp [poolDelete, poolLookup, hk, ih]

theorem poolLookup_poolDelete_ne {Card : Type} {p : List (CardName × Card)} {n m : CardName}
    (h : m ≠ n) : poolLookup (poolDelete p n) m = poolLookup p m := by
  induction p with
  | nil => rfl
  | cons kv rest ih =>
      by_cases hk : kv.1 = n
      · have h' : ¬ n = m := fun hc => h hc.symm
        simp [poolDelete, poolLookup, hk, h', ih]
      · by_cases hm : kv.1 = m
        · simp [poolDelete, poolLookup, hk, hm, h]
        · simp [poolDelete, poolLookup, hk, hm, ih]

theorem mem_poolDelete {Card : Type} {p : List (CardName × Card)} {n : CardName}
    {kv : CardName × Card} (h : kv ∈ poolDelete p n) : kv ∈ p ∧ kv.1 ≠ n := by
  induction p with
  | nil => simp [poolDelete] at h
  | cons kv' rest ih =>
      by_cases hk : kv'.1 = n
      · simp only [poolDelete, if_pos hk] at h
        exact ⟨List.mem_cons_of_mem _ (ih h).1, (ih h).2⟩
      · simp only [poolDelete, if_neg hk, List.mem_cons] at h
        rcases h with h | h
        · exact ⟨h ▸ List.mem_cons_self _ _, h ▸ hk⟩
        · exact ⟨List.mem_cons_of_mem _ (ih h).1, (ih h).2⟩

theorem poolLookup_isSome_of_mem {Card : Type} {p : List (CardName × Card)} {n : CardName}
    {c : Card} (h : (n, c) ∈ p) : (poolLookup p n).isSome := by
  induction p with
  | nil => simp at h
  | cons kv rest ih =>
      rcases List.mem_cons.mp h with h' | h'
      · simp [poolLookup, ← h']
      · by_cases hk : kv.1 = n
        · simp [poolLookup, hk]
        · simp [poolLookup, hk, ih h']

theorem exists_mem_of_poolLookup_isSome {Card : Type} {p : List (CardName × Card)}
    {n : CardName} (h : (poolLookup p n).isSome) : ∃ c, (n, c) ∈ p := by
  induction p with
  | nil => simp [poolLookup] at h
  | cons kv rest ih =>
      by_cases hk : kv.1 = n
      · exact ⟨kv.2, by simp [← hk]⟩
      · simp only [poolLookup, if_neg hk] at h
        rcases ih h with ⟨c, hc⟩
        exact ⟨c, List.mem_cons_of_mem _ hc⟩

theorem mem_setTouch_iff {l : List CardName} {n m : CardName} :
    m ∈ setTouch l n ↔ m = n ∨ m ∈ l := by
  unfold setTouch
  constructor
  · intro h
    rcases List.mem_append.mp h with h | h
    · exact Or.inr (List.mem_of_mem_erase h)
    · exact Or.inl (by simpa using h)
  · intro h
    rcases h with h | h
    · exact List.mem_append.mpr (Or.inr (by simp [h]))
    · by_cases hmn : m = n
      · exact List.mem_append.mpr (Or.inr (by simp [hmn]))
      · exact List.mem_append.mpr (Or.inl ((List.mem_erase_of_ne hmn).mpr h))

theorem nodup_setTouch {l : List CardName} (h : l.Nodup) (n : CardName) :
    (setTouch l n).Nodup := by
  unfold setTouch
  refine List.nodup_append.mpr ⟨h.erase n, List.nodup_singleton n, ?_⟩
  intro a ha hb
  have ha' : a = n := by simpa using hb
  subst ha'
  exact h.not_mem_erase ha

theorem length_setTouch_le (l : List CardName) (n : CardName) :
    (setTouch l n).length ≤ l.length + 1 := by
  unfold setTouch
  have := List.length_erase_le n l
  simp only [List.length_append, List.length_singleton]
  omega

theorem getLast?_setTouch (l : List CardName) (n : CardName) :
    (setTouch l n).getLast? = some n :=
  List.getLast?_concat _

theorem setTouch_of_last {l : List CardName} {n : CardName} (hn : l.Nodup)
    (h : ∃ l', l = l' ++ [n]) : setTouch l n = l := by
  rcases h with ⟨l', rfl⟩
  have hnl' : n ∉ l' := by
    intro hmem
    have := List.nodup_append.mp hn
    exact this.2.2 hmem (by simp)
  unfold setTouch
  rw [List.erase_append_right _ hnl', List.erase_cons_head]
  simp


/-! ### Claim theorems -/

/-- C1: when the total-recency set is over `capCards` at the start of the
total-overflow step, the step removes exactly the first name (scanning oldest
to newest) that is not in the protected-recency set, deleting it from both the
total set and storage and doing nothing else; if every name in the total set
is protected, nothing is removed and the set stays over capacity.  At most one
eviction per pass. -/
theorem totalOverflowStep_evicts_first_unprotected {Card : Type} (capCards : Nat)
    (s : CardPoolState Card) (hover : s.cardSet.length > capCards) :
    (∀ pre nm post, s.cardSet = pre ++ nm :: post →
        (∀ x ∈ pre, x ∈ s.statefulCardSet) → nm ∉ s.statefulCardSet →
        totalOverflowStep capCards s =
          { s with cardSet := pre ++ post, cardPool := poolDelete s.cardPool nm }) ∧
    ((∀ x ∈ s.cardSet, x ∈ s.statefulCardSet) →
        totalOverflowStep capCards s = s ∧
        (totalOverflowStep capCards s).cardSet.length > capCards) := by
  constructor
  · intro pre nm post hsplit hpre hnm
    have hfind : s.cardSet.find? (fun x => decide (x ∉ s.statefulCardSet)) = some nm := by
      rw [hsplit, List.find?_append]
      have h1 : pre.find? (fun x => decide (x ∉ s.statefulCardSet)) = none :=
        List.find?_eq_none.mpr (fun x hx => by simpa using hpre x hx)
      have h2 : (nm :: post).find? (fun x => decide (x ∉ s.statefulCardSet)) = some nm :=
        List.find?_cons_of_pos _ (by simpa using hnm)
      rw [h1, h2]
      rfl
    have hnmpre : nm ∉ pre := fun hmem => hnm (hpre nm hmem)
    have herase : s.cardSet.erase nm = pre ++ post := by
      rw [hsplit, List.erase_append_right _ hnmpre, List.erase_cons_head]
    have hstep : totalOverflowStep capCards s =
        { s with cardSet := s.cardSet.erase nm, cardPool := poolDelete s.cardPool nm } := by
      unfold totalOverflowStep
      rw [if_pos hover, hfind]
    rw [hstep, herase]
  · intro hall
    have hfind : s.cardSet.find? (fun x => decide (x ∉ s.statefulCardSet)) = none :=
      List.find?_eq_none.mpr (fun x hx => by simpa using hall x hx)
    have heq : totalOverflowStep capCards s = s := by
      unfold totalOverflowStep
      rw [if_pos hover, hfind]
    exact ⟨heq, by rw [heq]; exact hover⟩

/-- Witness for C1 on a concrete pool: `"a"` is protected, `"b"` is the first
unprotected name, and the step deletes `"b"` from both structures. -/
theorem totalOverflowStep_evicts_first_unprotected_witness :
    totalOverflowStep 1
        ({ cardPool := [("a", 0), ("b", 1)], cardSet := ["a", "b"],
           statefulCardSet := ["a"] } : CardPoolState Nat) =
      { cardPool := [("a", 0)], cardSet := ["a"], statefulCardSet := ["a"] } := by
  have h := (totalOverflowStep_evicts_first_unprotected 1
      ({ cardPool := [("a", 0), ("b", 1)], cardSet := ["a", "b"],
         statefulCardSet := ["a"] } : CardPoolState Nat) (by decide)).1
      ["a"] "b" [] rfl (by decide) (by decide)
  rw [h]
  simp [poolDelete]

/-- C2: when the protected-recency set is over `capStateful`, the dequeue step
removes exactly its oldest name and nothing else: storage and the
total-recency set are untouched, and the dequeued name stays in both (given it
was there, as the pool invariant guarantees).  One dequeue per pass. -/
theorem statefulDequeueStep_dequeues_oldest {Card : Type} (capStateful : Nat)
    (s : CardPoolState Card) (nm : CardName) (rest : List CardName)
    (hs : s.statefulCardSet = nm :: rest)
    (hover : s.statefulCardSet.length > capStateful)
    (hmem : nm ∈ s.cardSet) (hstor : (poolLookup s.cardPool nm).isSome) :
    statefulDequeueStep capStateful s = { s with statefulCardSet := rest } ∧
    (statefulDequeueStep capStateful s).cardPool = s.cardPool ∧
    (statefulDequeueStep capStateful s).cardSet = s.cardSet ∧
    nm ∈ (statefulDequeueStep capStateful s).cardSet ∧
    (poolLookup (statefulDequeueStep capStateful s).cardPool nm).isSome := by
  have heq : statefulDequeueStep capStateful s = { s with statefulCardSet := rest } := by
    unfold statefulDequeueStep
    rw [if_pos hover, hs]
  exact ⟨heq, by rw [heq], by rw [heq], by rw [heq]; exact hmem, by rw [heq]; exact hstor⟩

/-- Witness for C2 on a concrete pool with the protected set over capacity. -/
theorem statefulDequeueStep_dequeues_oldest_witness :
    statefulDequeueStep 1
        ({ cardPool := [("a", 0), ("b", 1)], cardSet := ["a", "b"],
           statefulCardSet := ["a", "b"] } : CardPoolState Nat) =
      { cardPool := [("a", 0), ("b", 1)], cardSet := ["a", "b"],
        statefulCardSet := ["b"] } := by
  exact (statefulDequeueStep_dequeues_oldest 1
      ({ cardPool := [("a", 0), ("b", 1)], cardSet := ["a", "b"],
         statefulCardSet := ["a", "b"] } : CardPoolState Nat) "a" ["b"]
      rfl (by decide) (by decide) (by decide)).1

/-- C5: when `cardName` has no storage entry and a stateful reference is
supplied, `markCardInuse` revives it: the reference is installed in storage
(no factory involved — `markCardInuse` takes no factory at all), the name is
re-inserted at the newest position of both recency sets, and the eviction
pass then runs on that intermediate state, all in the one call. -/
theorem markCardInuse_revival {Card : Type} (capCards capStateful : Nat)
    (s : CardPoolState Card) (cardName : CardName) (c : Card)
    (hnone : poolLookup s.cardPool cardName = none) :
    markCardInuse capCards capStateful s cardName (some c) =
      purgeUnusedCard capCards capStateful
        { cardPool := poolInsert s.cardPool cardName c,
          cardSet := setTouch s.cardSet cardName,
          statefulCardSet := setTouch s.statefulCardSet cardName } ∧
    poolLookup (poolInsert s.cardPool cardName c) cardName = some c ∧
    (setTouch s.cardSet cardName).getLast? = some cardName ∧
    (setTouch s.statefulCardSet cardName).getLast? = some cardName := by
  refine ⟨?_, ?_, getLast?_setTouch _ _, getLast?_setTouch _ _⟩
  · unfold markCardInuse
    rw [hnone]
    simp [hnone]
  · rw [poolLookup_poolInsert]
    simp

/-- Witness for C5: reviving `"a"` into an empty pool. -/
theorem markCardInuse_revival_witness :
    markCardInuse 4 1 (emptyPool : CardPoolState Nat) "a" (some 7) =
      purgeUnusedCard 4 1
        { cardPool := poolInsert [] "a" 7, cardSet := setTouch [] "a",
          statefulCardSet := setTouch [] "a" } :=
  (markCardInuse_revival 4 1 (emptyPool : CardPoolState Nat) "a" 7 rfl).1

/-- C7: on a fresh pool of total capacity 4 (protected capacity 1), inserting
`"a","b","c","d"`, marking `"a"` stateful, then inserting `"e"` keeps `"a"`
(protected) and evicts `"b"`, the oldest unprotected name, from storage and
from the total-recency set. -/
theorem protection_precedence_scenario :
    (poolLookup (runOps (fun _ p => p) (CAPACITY_CARDS 4) (CAPACITY_STATEFUL_CARDS 4)
        (emptyPool : CardPoolState Nat)
        [PoolOp.fetch "a" (some 1), PoolOp.fetch "b" (some 2), PoolOp.fetch "c" (some 3),
         PoolOp.fetch "d" (some 4), PoolOp.touch "a" (some 100),
         PoolOp.fetch "e" (some 5)]).cardPool "a").isSome ∧
    "a" ∈ (runOps (fun _ p => p) (CAPACITY_CARDS 4) (CAPACITY_STATEFUL_CARDS 4)
        (emptyPool : CardPoolState Nat)
        [PoolOp.fetch "a" (some 1), PoolOp.fetch "b" (some 2), PoolOp.fetch "c" (some 3),
         PoolOp.fetch "d" (some 4), PoolOp.touch "a" (some 100),
         PoolOp.fetch "e" (some 5)]).cardSet ∧
    poolLookup (runOps (fun _ p => p) (CAPACITY_CARDS 4) (CAPACITY_STATEFUL_CARDS 4)
        (emptyPool : CardPoolState Nat)
        [PoolOp.fetch "a" (some 1), PoolOp.fetch "b" (some 2), PoolOp.fetch "c" (some 3),
         PoolOp.fetch "d" (some 4), PoolOp.touch "a" (some 100),
         PoolOp.fetch "e" (some 5)]).cardPool "b" = none ∧
    "b" ∉ (runOps (fun _ p => p) (CAPACITY_CARDS 4) (CAPACITY_STATEFUL_CARDS 4)
        (emptyPool : CardPoolState Nat)
        [PoolOp.fetch "a" (some 1), PoolOp.fetch "b" (some 2), PoolOp.fetch "c" (some 3),
         PoolOp.fetch "d" (some 4), PoolOp.touch "a" (some 100),
         PoolOp.fetch "e" (some 5)]).cardSet := by
  decide

/-! ### Preservation of well-formedness by the eviction pass and both calls -/

theorem statefulDequeueStep_facts {Card : Type} (capStateful : Nat)
    (s : CardPoolState Card) :
    (statefulDequeueStep capStateful s).cardPool = s.cardPool ∧
    (statefulDequeueStep capStateful s).cardSet = s.cardSet ∧
    (∀ n ∈ (statefulDequeueStep capStateful s).statefulCardSet, n ∈ s.statefulCardSet) ∧
    (s.statefulCardSet.Nodup → (statefulDequeueStep capStateful s).statefulCardSet.Nodup) ∧
    (s.statefulCardSet.length ≤ capStateful + 1 →
      (statefulDequeueStep capStateful s).statefulCardSet.length ≤ capStateful) := by
  unfold statefulDequeueStep
  by_cases hg : s.statefulCardSet.length > capStateful
  · rw [if_pos hg]
    cases hs : s.statefulCardSet with
    | nil => rw [hs] at hg; simp at hg
    | cons nm rest =>
        refine ⟨rfl, rfl, ?_, ?_, ?_⟩
        · intro n hn
          exact List.mem_cons_of_mem _ hn
        · intro hnd
          exact hnd.of_cons
        · intro hlen
          rw [hs] at hg
          show rest.length ≤ capStateful
          simp only [List.length_cons] at hg hlen
          omega
  · rw [if_neg hg]
    exact ⟨rfl, rfl, fun n hn => hn, fun h => h, fun _ => by omega⟩

theorem WF_totalOverflowStep {Card : Type} {capCards capStateful : Nat}
    {t : CardPoolState Card} (hcs : capStateful ≤ capCards)
    (h1 : t.cardSet.Nodup) (h2 : t.statefulCardSet.Nodup)
    (hsub : ∀ n ∈ t.statefulCardSet, n ∈ t.cardSet)
    (hst1 : ∀ n ∈ t.cardSet, (poolLookup t.cardPool n).isSome)
    (hst2 : ∀ kv ∈ t.cardPool, kv.1 ∈ t.cardSet)
    (hlen1 : t.cardSet.length ≤ capCards + 1)
    (hlen2 : t.statefulCardSet.length ≤ capStateful) :
    WF capCards capStateful (totalOverflowStep capCards t) := by
  unfold totalOverflowStep
  by_cases hg : t.cardSet.length > capCards
  · rw [if_pos hg]
    cases hf : t.cardSet.find? (fun nm => decide (nm ∉ t.statefulCardSet)) with
    | none =>
        exfalso
        have hall : ∀ x ∈ t.cardSet, x ∈ t.statefulCardSet := by
          intro x hx
          have := List.find?_eq_none.mp hf x hx
          simpa using this
        have hsubset : t.cardSet.toFinset ⊆ t.statefulCardSet.toFinset := by
          intro x hx
          rw [List.mem_toFinset] at hx ⊢
          exact hall x hx
        have hcard : t.cardSet.length ≤ t.statefulCardSet.length :=
          calc t.cardSet.length = t.cardSet.toFinset.card :=
                (List.toFinset_card_of_nodup h1).symm
            _ ≤ t.statefulCardSet.toFinset.card := Finset.card_le_card hsubset
            _ ≤ t.statefulCardSet.length := List.toFinset_card_le _
        omega
    | some nm =>
        have hnm_mem : nm ∈ t.cardSet := List.mem_of_find?_eq_some hf
        have hnm_not : nm ∉ t.statefulCardSet := by
          have := List.find?_some hf
          simpa using this
        refine ⟨h1.erase nm, h2, ?_, ?_, ?_, ?_, hlen2⟩
        · intro n hn
          have hne : n ≠ nm := fun hc => hnm_not (hc ▸ hn)
          exact (List.mem_erase_of_ne hne).mpr (hsub n hn)
        · intro n hn
          have hne : n ≠ nm := ((h1.mem_erase_iff).mp hn).1
          have hn' : n ∈ t.cardSet := List.mem_of_mem_erase hn
          rw [poolLookup_poolDelete_ne hne]
          exact hst1 n hn'
        · intro kv hkv
          obtain ⟨hkv', hne⟩ := mem_poolDelete hkv
          exact (List.mem_erase_of_ne hne).mpr (hst2 kv hkv')
        · rw [List.length_erase_of_mem hnm_mem]
          omega
  · rw [if_neg hg]
    exact ⟨h1, h2, hsub, hst1, hst2, by omega, hlen2⟩

theorem WF_purgeUnusedCard {Card : Type} {capCards capStateful : Nat}
    {s : CardPoolState Card} (hcs : capStateful ≤ capCards)
    (h1 : s.cardSet.Nodup) (h2 : s.statefulCardSet.Nodup)
    (hsub : ∀ n ∈ s.statefulCardSet, n ∈ s.cardSet)
    (hst1 : ∀ n ∈ s.cardSet, (poolLookup s.cardPool n).isSome)
    (hst2 : ∀ kv ∈ s.cardPool, kv.1 ∈ s.cardSet)
    (hlen1 : s.cardSet.length ≤ capCards + 1)
    (hlen2 : s.statefulCardSet.length ≤ capStateful + 1) :
    WF capCards capStateful (purgeUnusedCard capCards capStateful s) := by
  obtain ⟨hp, hc, hmono, hnd, hlen⟩ := statefulDequeueStep_facts capStateful s
  unfold purgeUnusedCard
  exact WF_totalOverflowStep hcs (hc ▸ h1) (hnd h2)
    (fun n hn => hc ▸ hsub n (hmono n hn))
    (fun n hn => hp ▸ hst1 n (hc ▸ hn))
    (fun kv hkv => hc ▸ hst2 kv (hp ▸ hkv))
    (hc ▸ hlen1) (hlen hlen2)

theorem WF_markCardInuse_aux {Card : Type} {capCards capStateful : Nat}
    {s : CardPoolState Card} {cardName : CardName} {statefulCard : Option Card}
    (hcs : capStateful ≤ capCards)
    (h1 : s.cardSet.Nodup) (h2 : s.statefulCardSet.Nodup)
    (hsub : ∀ n ∈ s.statefulCardSet, n ∈ s.cardSet)
    (hst1 : ∀ n ∈ s.cardSet, (poolLookup s.cardPool n).isSome)
    (hst2 : ∀ kv ∈ s.cardPool, kv.1 ∈ s.cardSet ∨ kv.1 = cardName)
    (hlen1 : s.cardSet.length ≤ capCards)
    (hlen2 : s.statefulCardSet.length ≤ capStateful) :
    WF capCards capStateful (markCardInuse capCards capStateful s cardName statefulCard) := by
  unfold markCardInuse
  by_cases hg : ((poolLookup s.cardPool cardName).isSome || statefulCard.isSome) = true
  · rw [if_pos hg]
    cases statefulCard with
    | none =>
        have hlook : (poolLookup s.cardPool cardName).isSome := by simpa using hg
        show WF capCards capStateful (purgeUnusedCard capCards capStateful
          { s with cardSet := setTouch s.cardSet cardName })
        apply WF_purgeUnusedCard hcs
        · exact nodup_setTouch h1 cardName
        · exact h2
        · intro n hn
          exact mem_setTouch_iff.mpr (Or.inr (hsub n hn))
        · intro n hn
          rcases mem_setTouch_iff.mp hn with h | h
          · exact h ▸ hlook
          · exact hst1 n h
        · intro kv hkv
          rcases hst2 kv hkv with h | h
          · exact mem_setTouch_iff.mpr (Or.inr h)
          · exact mem_setTouch_iff.mpr (Or.inl h)
        · exact le_trans (length_setTouch_le _ _) (by omega)
        · show s.statefulCardSet.length ≤ capStateful + 1
          omega
    | some c =>
        show WF capCards capStateful (purgeUnusedCard capCards capStateful
          { cardPool := if (poolLookup s.cardPool cardName).isSome then s.cardPool
                        else poolInsert s.cardPool cardName c,
            cardSet := setTouch s.cardSet cardName,
            statefulCardSet := setTouch s.statefulCardSet cardName })
        have hcard : ∀ n ∈ setTouch s.statefulCardSet cardName, n ∈ setTouch s.cardSet cardName := by
          intro n hn
          rcases mem_setTouch_iff.mp hn with h | h
          · exact mem_setTouch_iff.mpr (Or.inl h)
          · exact mem_setTouch_iff.mpr (Or.inr (hsub n h))
        by_cases hl : (poolLookup s.cardPool cardName).isSome
        · rw [if_pos hl]
          apply WF_purgeUnusedCard hcs
          · exact nodup_setTouch h1 cardName
          · exact nodup_setTouch h2 cardName
          · exact hcard
          · intro n hn
            rcases mem_setTouch_iff.mp hn with h | h
            · exact h ▸ hl
            · exact hst1 n h
          · intro kv hkv
            rcases hst2 kv hkv with h | h
            · exact mem_setTouch_iff.mpr (Or.inr h)
            · exact mem_setTouch_iff.mpr (Or.inl h)
          · exact le_trans (length_setTouch_le _ _) (by omega)
          · exact le_trans (length_setTouch_le _ _) (by omega)
        · rw [if_neg hl]
          apply WF_purgeUnusedCard hcs
          · exact nodup_setTouch h1 cardName
          · exact nodup_setTouch h2 cardName
          · exact hcard
          · intro n hn
            show (poolLookup (poolInsert s.cardPool cardName c) n).isSome
            rw [poolLookup_poolInsert]
            rcases mem_setTouch_iff.mp hn with h | h
            · rw [if_pos h]; rfl
            · by_cases hne : n = cardName
              · rw [if_pos hne]; rfl
              · rw [if_neg hne]; exact hst1 n h
          · intro kv hkv
            rcases mem_poolInsert hkv with h | h
            · exact mem_setTouch_iff.mpr (Or.inl (by rw [h]))
            · rcases hst2 kv h with h' | h'
              · exact mem_setTouch_iff.mpr (Or.inr h')
              · exact mem_setTouch_iff.mpr (Or.inl h')
          · exact le_trans (length_setTouch_le _ _) (by omega)
          · exact le_trans (length_setTouch_le _ _) (by omega)
  · rw [if_neg hg]
    simp only [Bool.or_eq_true, not_or, Bool.not_eq_true] at hg
    obtain ⟨hg1, hg2⟩ := hg
    refine ⟨h1, h2, hsub, hst1, ?_, hlen1, hlen2⟩
    intro kv hkv
    rcases hst2 kv hkv with h | h
    · exact h
    · exfalso
      have hmem : (cardName, kv.2) ∈ s.cardPool := by
        rw [← h]
        exact hkv
      have := poolLookup_isSome_of_mem hmem
      rw [hg1] at this
      exact Bool.false_ne_true this

theorem WF_markCardInuse {Card : Type} {capCards capStateful : Nat}
    {s : CardPoolState Card} (cardName : CardName) (statefulCard : Option Card)
    (hcs : capStateful ≤ capCards) (hwf : WF capCards capStateful s) :
    WF capCards capStateful (markCardInuse capCards capStateful s cardName statefulCard) := by
  obtain ⟨h1, h2, hsub, hst1, hst2, hlen1, hlen2⟩ := hwf
  exact WF_markCardInuse_aux hcs h1 h2 hsub hst1
    (fun kv hkv => Or.inl (hst2 kv hkv)) hlen1 hlen2

theorem WF_getCard {Card Payload : Type} (factory : CardName → Payload → Card)
    {capCards capStateful : Nat} {s : CardPoolState Card} (cardName : CardName)
    (cardPayload : Option Payload)
    (hcs : capStateful ≤ capCards) (hwf : WF capCards capStateful s) :
    WF capCards capStateful
      (getCard factory capCards capStateful s cardName cardPayload).2 := by
  obtain ⟨h1, h2, hsub, hst1, hst2, hlen1, hlen2⟩ := hwf
  unfold getCard fetchStoreStep
  by_cases hl : (poolLookup s.cardPool cardName).isSome
  · rw [if_pos hl]
    exact WF_markCardInuse_aux hcs h1 h2 hsub hst1
      (fun kv hkv => Or.inl (hst2 kv hkv)) hlen1 hlen2
  · rw [if_neg hl]
    cases cardPayload with
    | none =>
        exact WF_markCardInuse_aux hcs h1 h2 hsub hst1
          (fun kv hkv => Or.inl (hst2 kv hkv)) hlen1 hlen2
    | some p =>
        show WF capCards capStateful (markCardInuse capCards capStateful
          { s with cardPool := poolInsert s.cardPool cardName (factory cardName p) }
          cardName none)
        apply WF_markCardInuse_aux hcs
        · exact h1
        · exact h2
        · exact hsub
        · intro n hn
          show (poolLookup (poolInsert s.cardPool cardName (factory cardName p)) n).isSome
          rw [poolLookup_poolInsert]
          by_cases hne : n = cardName
          · rw [if_pos hne]; rfl
          · rw [if_neg hne]; exact hst1 n hn
        · intro kv hkv
          rcases mem_poolInsert hkv with h | h
          · exact Or.inr (by rw [h])
          · exact Or.inl (hst2 kv h)
        · exact hlen1
        · exact hlen2

theorem WF_runOp {Card Payload : Type} (factory : CardName → Payload → Card)
    {capCards capStateful : Nat} {s : CardPoolState Card}
    (op : PoolOp Card Payload)
    (hcs : capStateful ≤ capCards) (hwf : WF capCards capStateful s) :
    WF capCards capStateful (runOp factory capCards capStateful s op) := by
  cases op with
  | fetch n p => exact WF_getCard factory n p hcs hwf
  | touch n c => exact WF_markCardInuse n c hcs hwf

theorem WF_emptyPool {Card : Type} (capCards capStateful : Nat) :
    WF capCards capStateful (emptyPool : CardPoolState Card) := by
  refine ⟨List.nodup_nil, List.nodup_nil, ?_, ?_, ?_, ?_, ?_⟩ <;> simp [emptyPool]

theorem WF_runOps {Card Payload : Type} (factory : CardName → Payload → Card)
    {capCards capStateful : Nat} {s : CardPoolState Card}
    (ops : List (PoolOp Card Payload))
    (hcs : capStateful ≤ capCards) (hwf : WF capCards capStateful s) :
    WF capCards capStateful (runOps factory capCards capStateful s ops) := by
  induction ops generalizing s with
  | nil => exact hwf
  | cons op rest ih =>
      exact ih (WF_runOp factory op hcs hwf)

theorem capStateful_le_capCards (n : Nat) :
    CAPACITY_STATEFUL_CARDS n ≤ CAPACITY_CARDS n := by
  unfold CAPACITY_STATEFUL_CARDS CAPACITY_CARDS
  have h4 : 4 ≤ max 4 n := le_max_left 4 n
  revert h4
  generalize max 4 n = m
  intro h4
  omega

/-- C3: after any finite sequence of public operations from a fresh pool, the
names of the total-recency set are exactly the storage keys, and the
protected-recency set is contained in the total-recency set.  (The code makes
the revival path re-insert into the total set in the same call, so the
invariant in fact holds with no transient exception window at all.) -/
theorem total_set_matches_storage {Card Payload : Type}
    (factory : CardName → Payload → Card) (capArg : Nat)
    (ops : List (PoolOp Card Payload)) :
    (∀ n, n ∈ (runOps factory (CAPACITY_CARDS capArg) (CAPACITY_STATEFUL_CARDS capArg)
          emptyPool ops).cardSet ↔
        (poolLookup (runOps factory (CAPACITY_CARDS capArg) (CAPACITY_STATEFUL_CARDS capArg)
          emptyPool ops).cardPool n).isSome) ∧
    (∀ n ∈ (runOps factory (CAPACITY_CARDS capArg) (CAPACITY_STATEFUL_CARDS capArg)
          emptyPool ops).statefulCardSet,
        n ∈ (runOps factory (CAPACITY_CARDS capArg) (CAPACITY_STATEFUL_CARDS capArg)
          emptyPool ops).cardSet) := by
  obtain ⟨h1, h2, hsub, hst1, hst2, hlen1, hlen2⟩ :=
    WF_runOps factory ops (capStateful_le_capCards capArg) (WF_emptyPool _ _)
  refine ⟨fun n => ⟨hst1 n, fun hs => ?_⟩, hsub⟩
  obtain ⟨c, hc⟩ := exists_mem_of_poolLookup_isSome hs
  exact hst2 (n, c) hc

/-- C6: for any constructor argument and any finite sequence of fetch/touch
calls from the fresh pool, the total-recency set stays within
`totalCapacity + 1` and the protected set within `protectedCapacity + 1`,
where `totalCapacity` is the argument clamped to a floor of 4 and
`protectedCapacity = max(1, ceil(totalCapacity / 4))` (the `max 1` being
redundant since `totalCapacity >= 4`). -/
theorem capacity_bound_sequences {Card Payload : Type}
    (factory : CardName → Payload → Card) (capArg : Nat)
    (ops : List (PoolOp Card Payload)) :
    (runOps factory (CAPACITY_CARDS capArg) (CAPACITY_STATEFUL_CARDS capArg)
        emptyPool ops).cardSet.length ≤ CAPACITY_CARDS capArg + 1 ∧
    (runOps factory (CAPACITY_CARDS capArg) (CAPACITY_STATEFUL_CARDS capArg)
        emptyPool ops).statefulCardSet.length ≤ CAPACITY_STATEFUL_CARDS capArg + 1 ∧
    CAPACITY_CARDS capArg = max 4 capArg ∧
    CAPACITY_STATEFUL_CARDS capArg = max 1 ((CAPACITY_CARDS capArg + 3) / 4) := by
  obtain ⟨_, _, _, _, _, hlen1, hlen2⟩ :=
    WF_runOps factory ops (capStateful_le_capCards capArg) (WF_emptyPool _ _)
  refine ⟨by omega, by omega, rfl, ?_⟩
  unfold CAPACITY_STATEFUL_CARDS CAPACITY_CARDS
  have h4 : 4 ≤ max 4 capArg := le_max_left 4 capArg
  revert h4
  generalize max 4 capArg = m
  intro h4
  have h1 : 1 ≤ (m + 3) / 4 := by omega
  exact (Nat.max_eq_right h1).symm

/-- C10: the bound is in fact one slot tighter than the spec's allowance —
after every completed public operation from a fresh pool, the total set holds
at most `CAPACITY_CARDS` names and the protected set at most
`CAPACITY_STATEFUL_CARDS` names, because the stateful dequeue runs before the
total-overflow check and `CAPACITY_STATEFUL_CARDS <= CAPACITY_CARDS`, so an
unprotected eviction candidate always exists when the total set overflows. -/
theorem capacity_bound_after_each_call {Card Payload : Type}
    (factory : CardName → Payload → Card) (capArg : Nat)
    (ops : List (PoolOp Card Payload)) :
    (runOps factory (CAPACITY_CARDS capArg) (CAPACITY_STATEFUL_CARDS capArg)
        emptyPool ops).cardSet.length ≤ CAPACITY_CARDS capArg ∧
    (runOps factory (CAPACITY_CARDS capArg) (CAPACITY_STATEFUL_CARDS capArg)
        emptyPool ops).statefulCardSet.length ≤ CAPACITY_STATEFUL_CARDS capArg := by
  obtain ⟨_, _, _, _, _, hlen1, hlen2⟩ :=
    WF_runOps factory ops (capStateful_le_capCards capArg) (WF_emptyPool _ _)
  exact ⟨hlen1, hlen2⟩

/-! ### The touched name stays newest through the eviction pass -/

theorem purgeUnusedCard_keeps_last {Card : Type} (capCards capStateful : Nat)
    (t : CardPoolState Card) (name : CardName)
    (hlast : ∃ l, t.cardSet = l ++ [name])
    (hsome : (poolLookup (purgeUnusedCard capCards capStateful t).cardPool name).isSome) :
    (purgeUnusedCard capCards capStateful t).cardSet.getLast? = some name := by
  obtain ⟨hp, hc, _, _, _⟩ := statefulDequeueStep_facts capStateful t
  rcases hlast with ⟨l, hl⟩
  have hl1 : (statefulDequeueStep capStateful t).cardSet = l ++ [name] := by rw [hc, hl]
  unfold purgeUnusedCard totalOverflowStep at hsome ⊢
  by_cases hg : (statefulDequeueStep capStateful t).cardSet.length > capCards
  · rw [if_pos hg] at hsome ⊢
    cases hf : (statefulDequeueStep capStateful t).cardSet.find?
        (fun nm => decide (nm ∉ (statefulDequeueStep capStateful t).statefulCardSet)) with
    | none =>
        show (statefulDequeueStep capStateful t).cardSet.getLast? = some name
        rw [hl1]
        exact List.getLast?_concat _
    | some nm =>
        rw [hf] at hsome
        have hsome' : (poolLookup (poolDelete (statefulDequeueStep capStateful t).cardPool nm)
            name).isSome := hsome
        by_cases hne : nm = name
        · exfalso
          subst hne
          rw [poolLookup_poolDelete_self] at hsome'
          simp at hsome'
        · have hnm_mem : nm ∈ (statefulDequeueStep capStateful t).cardSet :=
            List.mem_of_find?_eq_some hf
          have hnm_l : nm ∈ l := by
            rcases List.mem_append.mp (hl1 ▸ hnm_mem) with h | h
            · exact h
            · exact absurd (by simpa using h) hne
          show ((statefulDequeueStep capStateful t).cardSet.erase nm).getLast? = some name
          rw [hl1, List.erase_append_left _ hnm_l, List.getLast?_concat]
  · rw [if_neg hg] at hsome ⊢
    rw [hl1]
    exact List.getLast?_concat _

theorem markCardInuse_touch_newest {Card : Type} (capCards capStateful : Nat)
    (s1 : CardPoolState Card) (cardName : CardName)
    (hsome : (poolLookup (markCardInuse capCards capStateful s1 cardName none).cardPool
        cardName).isSome) :
    (markCardInuse capCards capStateful s1 cardName none).cardSet.getLast? = some cardName := by
  unfold markCardInuse at hsome ⊢
  by_cases hg : ((poolLookup s1.cardPool cardName).isSome || (none : Option Card).isSome) = true
  · rw [if_pos hg] at hsome ⊢
    exact purgeUnusedCard_keeps_last capCards capStateful
      { s1 with cardSet := setTouch s1.cardSet cardName } cardName
      ⟨s1.cardSet.erase cardName, rfl⟩ hsome
  · rw [if_neg hg] at hsome
    exfalso
    simp only [Option.isSome_none, Bool.or_false] at hg
    rw [hsome] at hg
    exact hg rfl

/-- C4: whenever `getCard` returns a present card — hit, or miss with a
payload — the requested name sits at the newest (last) position of the
total-recency set after the call, eviction pass included.  (If the pass had
evicted the name itself, its storage entry would be gone and the returned
value, read after the pass, could not be present.) -/
theorem fetch_present_implies_newest {Card Payload : Type}
    (factory : CardName → Payload → Card) (capCards capStateful : Nat)
    (s : CardPoolState Card) (cardName : CardName) (cardPayload : Option Payload)
    (hpresent : ((getCard factory capCards capStateful s cardName cardPayload).1).isSome) :
    cardName ∈ ((getCard factory capCards capStateful s cardName cardPayload).2).cardSet ∧
    ((getCard factory capCards capStateful s cardName cardPayload).2).cardSet.getLast? =
      some cardName := by
  have h := markCardInuse_touch_newest capCards capStateful
    (fetchStoreStep factory s cardName cardPayload) cardName hpresent
  exact ⟨List.mem_of_getLast?_eq_some h, h⟩

/-- Witness for C4: a miss-with-payload fetch on the empty pool returns a
present card and leaves the name newest. -/
theorem fetch_present_implies_newest_witness :
    "a" ∈ ((getCard (fun (_ : CardName) (p : Nat) => p) 4 1 (emptyPool : CardPoolState Nat)
        "a" (some 7)).2).cardSet ∧
    ((getCard (fun (_ : CardName) (p : Nat) => p) 4 1 (emptyPool : CardPoolState Nat)
        "a" (some 7)).2).cardSet.getLast? = some "a" :=
  fetch_present_implies_newest (fun _ p => p) 4 1 emptyPool "a" (some 7) (by decide)

/-- C8: if the factory fails on a cache miss with a payload, `getCardE`
propagates that error and hands back exactly the pre-call state: nothing was
inserted into storage (the name still has no entry) nor into either recency
set (the name was in neither, by the storage invariant, and the state is
unchanged). -/
theorem factory_error_leaves_state_unchanged {Card Payload ε : Type}
    (factory : CardName → Payload → Except ε Card) (capCards capStateful : Nat)
    (s : CardPoolState Card) (cardName : CardName) (p : Payload) (e : ε)
    (hst1 : ∀ n ∈ s.cardSet, (poolLookup s.cardPool n).isSome)
    (hsub : ∀ n ∈ s.statefulCardSet, n ∈ s.cardSet)
    (hmiss : poolLookup s.cardPool cardName = none)
    (herr : factory cardName p = Except.error e) :
    getCardE factory capCards capStateful s cardName (some p) = (Except.error e, s) ∧
    cardName ∉ s.cardSet ∧ cardName ∉ s.statefulCardSet := by
  have hnmem : cardName ∉ s.cardSet := by
    intro hmem
    have := hst1 cardName hmem
    rw [hmiss] at this
    simp at this
  refine ⟨?_, hnmem, fun hmem => hnmem (hsub cardName hmem)⟩
  unfold getCardE
  rw [if_neg (by rw [hmiss]; simp)]
  simp only [herr]

/-- Witness for C8: an always-failing factory on the empty pool. -/
theorem factory_error_leaves_state_unchanged_witness :
    getCardE (fun (_ : CardName) (_ : Nat) => (Except.error 0 : Except Nat Nat)) 4 1
        (emptyPool : CardPoolState Nat) "a" (some 5) = (Except.error 0, emptyPool) ∧
    "a" ∉ (emptyPool : CardPoolState Nat).cardSet ∧
    "a" ∉ (emptyPool : CardPoolState Nat).statefulCardSet :=
  factory_error_leaves_state_unchanged (fun _ _ => Except.error 0) 4 1 emptyPool "a" 5 0
    (by decide) (by decide) rfl rfl

theorem purgeUnusedCard_noop {Card : Type} {capCards capStateful : Nat}
    {s : CardPoolState Card} (h1 : s.cardSet.length ≤ capCards)
    (h2 : s.statefulCardSet.length ≤ capStateful) :
    purgeUnusedCard capCards capStateful s = s := by
  have hd : statefulDequeueStep capStateful s = s := by
    unfold statefulDequeueStep
    rw [if_neg (by omega)]
  unfold purgeUnusedCard
  rw [hd]
  unfold totalOverflowStep
  rw [if_neg (by omega)]

/-- C9: on a within-capacity pool where `x` is stored and already newest in
the total-recency set, `touch(x)` — once and hence twice — changes nothing:
membership and order of both recency sets (indeed the whole state) are as
before. -/
theorem touch_idempotent_at_newest {Card : Type} (capCards capStateful : Nat)
    (s : CardPoolState Card) (x : CardName)
    (hnd : s.cardSet.Nodup)
    (hsome : (poolLookup s.cardPool x).isSome)
    (hlast : s.cardSet.getLast? = some x)
    (hlen1 : s.cardSet.length ≤ capCards)
    (hlen2 : s.statefulCardSet.length ≤ capStateful) :
    markCardInuse capCards capStateful s x none = s ∧
    markCardInuse capCards capStateful
      (markCardInuse capCards capStateful s x none) x none = s := by
  have htouch : setTouch s.cardSet x = s.cardSet := by
    apply setTouch_of_last hnd
    obtain ⟨ys, hys⟩ := List.getLast?_eq_some_iff.mp hlast
    exact ⟨ys, hys⟩
  have h1 : markCardInuse capCards capStateful s x none = s := by
    unfold markCardInuse
    rw [if_pos (by simp [hsome])]
    show purgeUnusedCard capCards capStateful { s with cardSet := setTouch s.cardSet x } = s
    rw [htouch]
    exact purgeUnusedCard_noop hlen1 hlen2
  exact ⟨h1, by rw [h1, h1]⟩

/-- Witness for C9 on a one-card pool with `"x"` stored and newest. -/
theorem touch_idempotent_at_newest_witness :
    markCardInuse 4 1 ({ cardPool := [("x", 5)], cardSet := ["x"], statefulCardSet := [] } :
        CardPoolState Nat) "x" none =
      { cardPool := [("x", 5)], cardSet := ["x"], statefulCardSet := [] } ∧
    markCardInuse 4 1 (markCardInuse 4 1
        ({ cardPool := [("x", 5)], cardSet := ["x"], statefulCardSet := [] } :
        CardPoolState Nat) "x" none) "x" none =
      { cardPool := [("x", 5)], cardSet := ["x"], statefulCardSet := [] } :=
  touch_idempotent_at_newest 4 1 _ "x" (by decide) (by decide) (by decide) (by decide)
    (by decide)
